import Mathlib

/-!
Verification of the layout-and-visibility engine of the knowledge-web
concept-graph renderer.

The embedding follows the source files:
* `src/frontend/src/components/ConceptGraph3D.tsx` (first variant, the one
  with `LOD_THRESHOLDS = {0: Infinity, 1: 25, 2: 18, 3: 10}`):
  `LOD_THRESHOLDS`, `isNodeVisible`, `isEdgeVisible`, the `NodeMesh` opacity
  damping and render cutoff, and the `Scene` edge rendering;
* `src/frontend/src/components/ConceptGraph3D.tsx` (third variant): the
  deterministic orbital layout;
* `src/unnamed/part_002` (`KnowledgeGraphPage`): `loadGraph`'s initial
  visible-node seeding, `getVisibleGraphData`, `handleNodeSelect`,
  `handleNodeExpand`, `handleEdgeSelect`, and the `RightPanel` close handler;
* `src/unnamed/part_000`: the `ConceptNode` / `RelationshipEdge` data model.

JavaScript numbers that take part in LOD comparisons are modelled by `JSNum`
(rationals plus `NaN` and `+Infinity`) with IEEE comparison semantics: any
comparison against `NaN` is false.  The decimal literal `0.1` of the opacity
damping is modelled as the rational `1/10`.
-/

namespace KWeb

/-- A concept node (src/unnamed/part_000, `ConceptNode`).  Fields that no
embedded computation reads (`description`, `unit`, numeric range,
`abstraction_level`, `category`, `parent_concepts`) are elided. -/
structure Concept where
  id : String
  label : String := ""
  depth_level : Option ℕ := none
  priority : Option ℕ := none
  semantic_type : Option String := none
deriving DecidableEq

/-- A relationship edge (src/unnamed/part_000, `RelationshipEdge`).  Fields
that no embedded computation reads (`relationship_type`, `description`,
`equation`, `has_simulation`) are elided. -/
structure Rel where
  id : String
  source : String
  target : String
deriving DecidableEq

/-- A loaded graph (src/unnamed/part_000, `GraphData`). -/
structure GraphData where
  concepts : List Concept
  relationships : List Rel
deriving DecidableEq

/-- A JavaScript number as it participates in the LOD comparisons:
`NaN`, a finite value, or `+Infinity`. -/
inductive JSNum where
  | nan
  | num (q : ℚ)
  | posInf
deriving DecidableEq

/-- The IEEE `<` comparison on `JSNum`: every comparison involving `NaN` is
false, and every finite value is `< Infinity`. -/
def jlt : JSNum → JSNum → Bool
  | .nan, _ => false
  | _, .nan => false
  | .num a, .num b => decide (a < b)
  | .num _, .posInf => true
  | .posInf, _ => false

/-- `LOD_THRESHOLDS` (ConceptGraph3D.tsx lines 37-42, first variant):
`{0: Infinity, 1: 25, 2: 18, 3: 10}`.  A key that is absent yields `none`
(JavaScript `undefined`). -/
def LOD_THRESHOLDS : ℕ → Option JSNum
  | 0 => some .posInf
  | 1 => some (.num 25)
  | 2 => some (.num 18)
  | 3 => some (.num 10)
  | _ => none

/-- `isNodeVisible` (ConceptGraph3D.tsx lines 239-247): the depth level
defaults to 0 (`node.depth_level ?? 0`), the threshold defaults to 10
(`LOD_THRESHOLDS[depthLevel] ?? 10`), and the node is visible iff
`cameraDistance < threshold`. -/
def isNodeVisible (cameraDistance : JSNum) (depth_level : Option ℕ) : Bool :=
  let dl := depth_level.getD 0
  jlt cameraDistance ((LOD_THRESHOLDS dl).getD (.num 10))

/-- The slice of a `Node3D` that the `Scene` visibility logic reads
(ConceptGraph3D.tsx, first variant): its id and its hierarchy tier.
The position, colour and size fields do not influence which nodes or
edges are part of the rendered output. -/
structure Node3D where
  id : String
  depth_level : Option ℕ
deriving DecidableEq

/-- The `nodeMap` lookup of `Scene` (ConceptGraph3D.tsx lines 232-236):
a JavaScript `Map` filled by `forEach`/`set`, so a later node with the same
id overwrites an earlier one. -/
def nodeMapGet (nodes : List Node3D) (i : String) : Option Node3D :=
  nodes.reverse.find? (fun n => n.id == i)

/-- `isEdgeVisible` (ConceptGraph3D.tsx lines 249-257): an edge is visible
iff both endpoint ids resolve in the node map and both resolved nodes are
LOD-visible. -/
def isEdgeVisible (nodes : List Node3D) (d : JSNum) (sourceId targetId : String) : Bool :=
  match nodeMapGet nodes sourceId, nodeMapGet nodes targetId with
  | some s, some t => isNodeVisible d s.depth_level && isNodeVisible d t.depth_level
  | _, _ => false

/-- The `Scene` edge rendering (ConceptGraph3D.tsx lines 276-298): an edge is
skipped when either endpoint id is absent from the node map, and the
`EdgeLine` returns `null` when `isEdgeVisible` is false.  So a relationship
produces a rendered edge iff both lookups succeed and `isEdgeVisible` holds. -/
def edgeRendered (nodes : List Node3D) (d : JSNum) (r : Rel) : Bool :=
  match nodeMapGet nodes r.source, nodeMapGet nodes r.target with
  | some _, some _ => isEdgeVisible nodes d r.source r.target
  | _, _ => false

/-- The per-frame opacity update of `NodeMesh` (ConceptGraph3D.tsx lines
66-69): `opacity += (target - opacity) * 0.1` with target 1 when the node is
LOD-visible and 0 otherwise. -/
def stepOpacity (visible : Bool) (prev : ℚ) : ℚ :=
  let target : ℚ := if visible then 1 else 0
  prev + (target - prev) * (1 / 10)

/-- `NodeMesh` (ConceptGraph3D.tsx line 71) returns `null` when
`opacity < 0.01`; otherwise the node is part of the rendered output for the
frame.  `prev` is the node's opacity before this frame's update. -/
def nodeRendered (d : JSNum) (prev : ℚ) (n : Node3D) : Bool :=
  !(decide (stepOpacity (isNodeVisible d n.depth_level) prev < 1 / 100))

/-- The spec-side LOD threshold table: `T_0 = ∞`, `T_1 = 25`, `T_2 = 18`,
`T_3 = 10`, written over `WithTop ℚ` so that the spec's "T_0 = Infinity"
is the top element. -/
def T : Fin 4 → WithTop ℚ
  | 0 => ⊤
  | 1 => ((25 : ℚ) : WithTop ℚ)
  | 2 => ((18 : ℚ) : WithTop ℚ)
  | 3 => ((10 : ℚ) : WithTop ℚ)

/-- Every threshold the lookup can produce is either `+Infinity` (depth 0)
or a positive finite value (25, 18, 10, or the `?? 10` fallback). -/
lemma threshold_cases (n : ℕ) :
    (LOD_THRESHOLDS n).getD (.num 10) = .posInf ∨
    ∃ c : ℚ, (LOD_THRESHOLDS n).getD (.num 10) = .num c ∧ 0 < c := by
  match n with
  | 0 => exact Or.inl rfl
  | 1 => exact Or.inr ⟨25, rfl, by norm_num⟩
  | 2 => exact Or.inr ⟨18, rfl, by norm_num⟩
  | 3 => exact Or.inr ⟨10, rfl, by norm_num⟩
  | (k + 4) => exact Or.inr ⟨10, rfl, by norm_num⟩

/-- C2: for every depth level k in {0,1,2,3} and every finite camera distance
d, the node is LOD-visible iff `d < T_k`; the thresholds are strictly
decreasing in k and `T_0 = ∞`. -/
theorem lod_visibility_iff_threshold :
    (∀ (k : Fin 4) (d : ℚ),
      isNodeVisible (.num d) (some k.val) = true ↔ ((d : WithTop ℚ) < T k)) ∧
    T 0 = ⊤ ∧ StrictAnti T := by
  refine ⟨?_, rfl, by decide⟩
  intro k d
  fin_cases k <;>
    simp [isNodeVisible, LOD_THRESHOLDS, jlt, T, WithTop.coe_lt_top] <;>
    exact (WithTop.coe_lt_coe).symm

/-- Witness for `lod_visibility_iff_threshold`: the strict-decrease part at
the concrete pair 0 < 1 gives `T 1 < T 0`. -/
theorem lod_visibility_iff_threshold_witness : T 1 < T 0 :=
  lod_visibility_iff_threshold.2.2 (show (0 : Fin 4) < 1 by decide)

/-- C3 counterexample: the claim "NaN or negative camera distance yields
exactly the core-only visible set" is false.  At distance −1 (negative) a
depth-1 node is visible — more than core-only — and at distance NaN even a
depth-0 core node is invisible. -/
theorem lod_unclamped_distance_cex :
    isNodeVisible (.num (-1)) (some 1) = true ∧
    isNodeVisible .nan (some 0) = false := by
  exact ⟨by decide, by decide⟩

/-- C3 amended: the visibility computation is total (never crashes), but it
performs no clamping: a NaN distance makes every node invisible (every IEEE
comparison with NaN is false, including against the depth-0 threshold
`Infinity`), and a negative distance makes every node visible (it is below
every threshold). -/
theorem lod_nan_empty_negative_all :
    (∀ dl, isNodeVisible .nan dl = false) ∧
    (∀ q : ℚ, q < 0 → ∀ dl, isNodeVisible (.num q) dl = true) := by
  constructor
  · intro dl
    simp only [isNodeVisible]
    rcases threshold_cases (dl.getD 0) with h | ⟨c, h, _⟩ <;> rw [h] <;> rfl
  · intro q hq dl
    simp only [isNodeVisible]
    rcases threshold_cases (dl.getD 0) with h | ⟨c, h, hc⟩ <;> rw [h]
    · rfl
    · simp [jlt]
      exact hq.trans hc

/-- Witness for `lod_nan_empty_negative_all` at the concrete negative
distance −1 and depth level 2. -/
theorem lod_nan_empty_negative_all_witness :
    isNodeVisible (.num (-1)) (some 2) = true :=
  lod_nan_empty_negative_all.2 (-1) (by norm_num) (some 2)

/-! ### The `KnowledgeGraphPage` session (src/unnamed/part_002) -/

/-- One step of `connections.set(k, (connections.get(k) || 0) + 1)` on a
JavaScript `Map` (src/unnamed/part_002 lines 419-422).  A `Map` keeps
insertion order, so it is modelled as an association list: an existing key
is bumped in place, a new key is appended. -/
def mapIncr (m : List (String × ℕ)) (k : String) : List (String × ℕ) :=
  if m.any (fun p => p.1 == k) then
    m.map (fun p => if p.1 == k then (p.1, p.2 + 1) else p)
  else m ++ [(k, 1)]

/-- The `connections` map of `loadGraph` (src/unnamed/part_002 lines
418-422): for every relationship, both the source and the target id have
their count incremented, in that order. -/
def connections (rels : List Rel) : List (String × ℕ) :=
  rels.foldl (fun m r => mapIncr (mapIncr m r.source) r.target) []

/-- The `topNodes` computation of `loadGraph` (src/unnamed/part_002 lines
424-427): sort the `(id, count)` entries by count descending and keep the
first eight ids.  JavaScript's `Array.prototype.sort` is stable and the
comparator `(a, b) => b[1] - a[1]` orders by count descending; a stable sort
by a total preorder has a unique result, so it is modelled by insertion
sort with the relation "count ≥ count". -/
def topNodes (rels : List Rel) : List String :=
  ((connections rels).insertionSort (fun a b => b.2 ≤ a.2)).take 8 |>.map Prod.fst

/-- The initial visible-node set installed by
`setVisibleNodeIds(new Set(topNodes))` (src/unnamed/part_002 line 429). -/
def initialVisibleIds (rels : List Rel) : Finset String :=
  (topNodes rels).toFinset

/-- The neighbor set computed by `handleNodeExpand` (src/unnamed/part_002
lines 478-482): for every relationship, if its source is the expanded node
the target is added, and if its target is the expanded node the source is
added. -/
def neighbors (g : GraphData) (nid : String) : Finset String :=
  g.relationships.foldl
    (fun s r =>
      let s1 := if r.source == nid then insert r.target s else s
      if r.target == nid then insert r.source s1 else s1)
    ∅

/-- The interaction state of `KnowledgeGraphPage` (src/unnamed/part_002
lines 379-384): the committed node selection, the committed edge selection,
and the visible-node id set. -/
structure SessionState where
  selectedNode : Option Concept
  selectedEdge : Option Rel
  visible : Finset String
deriving DecidableEq

/-- The discrete interaction events of one session: single click on a node
(`handleNodeSelect`), click on an edge (`handleEdgeSelect`), double click on
a node (`handleNodeExpand`), and closing the right panel (which clears both
selections). -/
inductive Event where
  | selectNode (n : Concept)
  | selectEdge (e : Rel)
  | expand (n : Concept)
  | closePanel
deriving DecidableEq

/-- `handleNodeSelect` (src/unnamed/part_002 lines 459-470): commit the node
and clear any committed edge selection.  (`handleNodeClick` in
src/frontend/src/App.tsx lines 53-56 is identical.) -/
def handleNodeSelect (s : SessionState) (n : Concept) : SessionState :=
  { s with selectedNode := some n, selectedEdge := none }

/-- `handleEdgeSelect` (src/unnamed/part_002 lines 497-508): commit the edge
and clear any committed node selection.  (`handleEdgeClick` in
src/frontend/src/App.tsx lines 58-61 is identical.) -/
def handleEdgeSelect (s : SessionState) (e : Rel) : SessionState :=
  { s with selectedEdge := some e, selectedNode := none }

/-- `handleNodeExpand` (src/unnamed/part_002 lines 473-494): union the
expanded node's neighbors into the visible set, then also select the node. -/
def handleNodeExpand (g : GraphData) (s : SessionState) (n : Concept) : SessionState :=
  handleNodeSelect { s with visible := s.visible ∪ neighbors g n.id } n

/-- One interaction step of a session whose loaded graph is `g`. -/
def step (g : GraphData) (s : SessionState) : Event → SessionState
  | .selectNode n => handleNodeSelect s n
  | .selectEdge e => handleEdgeSelect s e
  | .expand n => handleNodeExpand g s n
  | .closePanel => { s with selectedNode := none, selectedEdge := none }

/-- A sequence of interaction steps. -/
def run (g : GraphData) (s : SessionState) : List Event → SessionState
  | [] => s
  | e :: evs => run g (step g s e) evs

/-- The state right after `loadGraph` completes (src/unnamed/part_002 lines
406-435): both selections cleared and the visible set seeded from the
relationship degrees. -/
def loadState (g : GraphData) : SessionState :=
  { selectedNode := none, selectedEdge := none,
    visible := initialVisibleIds g.relationships }

/-- `getVisibleGraphData` (src/unnamed/part_002 lines 387-403): keep the
concepts whose id is visible and the relationships both of whose endpoint
ids are visible. -/
def getVisibleGraphData (g : GraphData) (visible : Finset String) : GraphData :=
  { concepts := g.concepts.filter (fun c => decide (c.id ∈ visible)),
    relationships := g.relationships.filter
      (fun r => decide (r.source ∈ visible) && decide (r.target ∈ visible)) }

/-- The id/depth slice of the `Node3D` built for each concept by
`ConceptGraph3D` (first variant, lines 385-399): the spread `...node` keeps
the concept's id and depth level; the position comes from the external
d3-force simulation and does not influence which nodes or edges render. -/
def toNode3D (c : Concept) : Node3D :=
  { id := c.id, depth_level := c.depth_level }

/-- The rendered concept list for a frame: the visible filter of the store
(`getVisibleGraphData`) feeding the `Scene`'s node list. -/
def renderedConcepts (g : GraphData) (visible : Finset String) : List Concept :=
  (getVisibleGraphData g visible).concepts

/-- The rendered edge list for a frame: the visible filter of the store
followed by the `Scene` edge rendering at camera distance `d`. -/
def renderedEdges (g : GraphData) (visible : Finset String) (d : JSNum) : List Rel :=
  (getVisibleGraphData g visible).relationships.filter
    (fun r => edgeRendered ((getVisibleGraphData g visible).concepts.map toNode3D) d r)

/-! ### C1: the initial visible-set seed -/

/-- The spec's worked scenario: relationships A–B and B–C (the concept list
plays no role in the seed computation). -/
def scenarioRels : List Rel := [⟨"r1", "A", "B"⟩, ⟨"r2", "B", "C"⟩]

/-- Bumping a count touches no key other than `k`. -/
lemma mapIncr_keys {m : List (String × ℕ)} {k x : String}
    (hx : x ∈ (mapIncr m k).map Prod.fst) : x ∈ m.map Prod.fst ∨ x = k := by
  unfold mapIncr at hx
  split at hx
  · left
    rw [List.map_map] at hx
    have he : (Prod.fst ∘ fun p : String × ℕ => if p.1 == k then (p.1, p.2 + 1) else p)
        = Prod.fst := by
      funext p
      by_cases h : p.1 = k <;> simp [Function.comp_def, h]
    rwa [he] at hx
  · rw [List.map_append] at hx
    rcases List.mem_append.1 hx with h | h
    · exact Or.inl h
    · right
      simpa using h


/-- Every key of the `connections` map is an endpoint of some relationship. -/
lemma connections_keys {rels : List Rel} {x : String}
    (hx : x ∈ (connections rels).map Prod.fst) :
    ∃ r ∈ rels, x = r.source ∨ x = r.target := by
  suffices h : ∀ (l : List Rel) (m : List (String × ℕ)),
      x ∈ (l.foldl (fun m r => mapIncr (mapIncr m r.source) r.target) m).map Prod.fst →
      x ∈ m.map Prod.fst ∨ ∃ r ∈ l, x = r.source ∨ x = r.target by
    rcases h rels [] hx with h' | h'
    · simp at h'
    · exact h'
  intro l
  induction l with
  | nil => intro m hm; exact Or.inl hm
  | cons r l ih =>
    intro m hm
    rcases ih _ hm with h' | ⟨r', hr', hx'⟩
    · rcases mapIncr_keys h' with h'' | h''
      · rcases mapIncr_keys h'' with h3 | h3
        · exact Or.inl h3
        · exact Or.inr ⟨r, List.mem_cons_self _ _, Or.inl h3⟩
      · exact Or.inr ⟨r, List.mem_cons_self _ _, Or.inr h''⟩
    · exact Or.inr ⟨r', List.mem_cons_of_mem _ hr', hx'⟩

/-- C1 counterexample: for the spec scenario (nodes A depth 0, B depth 1,
C depth 2; edges A–B, B–C) the initial VisibleSet is not `{A}`: the seed
ranks relationship endpoints by degree and keeps up to eight of them, so all
of A, B, C are seeded. -/
theorem initial_seed_not_priority_cex :
    initialVisibleIds scenarioRels ≠ {"A"} := by decide

/-- C1 amended: after a graph load the initial VisibleSet is the set of (up
to eight) relationship-endpoint ids of highest degree — node `priority` and
`depth_level` are never consulted, and a graph with no relationships seeds an
empty (blank) scene rather than falling back to five nodes.  Concretely: the
scenario graph seeds `{A, B, C}`; every seeded id is an endpoint of some
relationship; at most eight ids are seeded; an empty relationship list seeds
the empty set. -/
theorem initial_seed_top_connected :
    initialVisibleIds scenarioRels = {"A", "B", "C"} ∧
    (∀ (rels : List Rel) (x : String), x ∈ initialVisibleIds rels →
      ∃ r ∈ rels, x = r.source ∨ x = r.target) ∧
    (∀ rels : List Rel, (initialVisibleIds rels).card ≤ 8) ∧
    initialVisibleIds [] = ∅ := by
  refine ⟨by decide, ?_, ?_, rfl⟩
  · intro rels x hx
    have hx' : x ∈ topNodes rels := List.mem_toFinset.1 hx
    unfold topNodes at hx'
    rcases List.mem_map.1 hx' with ⟨p, hp, hpx⟩
    have hp' : p ∈ (connections rels).insertionSort (fun a b => b.2 ≤ a.2) :=
      List.mem_of_mem_take hp
    have hp'' : p ∈ connections rels :=
      (List.perm_insertionSort (fun a b => b.2 ≤ a.2) (connections rels)).mem_iff.1 hp'
    exact hpx ▸ connections_keys (List.mem_map_of_mem Prod.fst hp'')
  · intro rels
    calc (initialVisibleIds rels).card ≤ (topNodes rels).length :=
          List.toFinset_card_le _
      _ ≤ 8 := by
          unfold topNodes
          simp [List.length_take]

/-- Witness for `initial_seed_top_connected`: the endpoint property at the
concrete seeded id B of the scenario. -/
theorem initial_seed_top_connected_witness :
    ∃ r ∈ scenarioRels, "B" = r.source ∨ "B" = r.target :=
  initial_seed_top_connected.2.1 scenarioRels "B" (by decide)

/-! ### C5, C6, C7, C10: session-state properties -/

/-- No single interaction step removes anything from the visible set. -/
lemma step_visible_mono (g : GraphData) (s : SessionState) (e : Event) :
    s.visible ⊆ (step g s e).visible := by
  cases e <;>
    simp [step, handleNodeExpand, handleNodeSelect, handleEdgeSelect,
      Finset.subset_union_left]

/-- No interaction sequence removes anything from the visible set. -/
lemma run_visible_mono (g : GraphData) (s : SessionState) (evs : List Event) :
    s.visible ⊆ (run g s evs).visible := by
  induction evs generalizing s with
  | nil => exact Finset.Subset.refl _
  | cons e evs ih => exact (step_visible_mono g s e).trans (ih _)

/-- Running a concatenated event list runs the pieces in order. -/
lemma run_append (g : GraphData) (s : SessionState) (l1 l2 : List Event) :
    run g s (l1 ++ l2) = run g (run g s l1) l2 := by
  induction l1 generalizing s with
  | nil => rfl
  | cons e l1 ih => simpa [run] using ih (step g s e)

/-- C5: within one session (a fixed loaded graph, no reload) the visible set
is monotonically non-decreasing: after any further interactions the visible
set contains everything it contained before.  The only mutations of
`visibleNodeIds` in the source are the neighbor union of `handleNodeExpand`
and the reseeding in `loadGraph`, which starts a new session. -/
theorem visible_set_monotone (g : GraphData) (s : SessionState)
    (l1 l2 : List Event) :
    (run g s l1).visible ⊆ (run g s (l1 ++ l2)).visible := by
  rw [run_append]
  exact run_visible_mono g _ l2

/-- C6: `expand` is idempotent — repeating an expand interaction immediately
leaves the whole session state (in particular the visible set) unchanged,
because the second neighbor union adds nothing new. -/
theorem expand_idempotent (g : GraphData) (s : SessionState) (n : Concept) :
    step g (step g s (.expand n)) (.expand n) = step g s (.expand n) := by
  simp [step, handleNodeExpand, handleNodeSelect, Finset.union_assoc]

/-- After any single interaction step at most one committed selection
remains (every handler that commits one side clears the other). -/
lemma step_at_most_one (g : GraphData) (s : SessionState) (e : Event) :
    (step g s e).selectedNode = none ∨ (step g s e).selectedEdge = none := by
  cases e <;>
    simp [step, handleNodeExpand, handleNodeSelect, handleEdgeSelect]

/-- C7: selecting a node commits it and clears any committed edge selection,
selecting an edge commits it and clears any committed node selection, and
consequently every state reachable from a graph load has at most one
committed selection. -/
theorem selection_mutual_exclusion :
    (∀ (s : SessionState) (n : Concept),
      (handleNodeSelect s n).selectedNode = some n ∧
      (handleNodeSelect s n).selectedEdge = none) ∧
    (∀ (s : SessionState) (e : Rel),
      (handleEdgeSelect s e).selectedEdge = some e ∧
      (handleEdgeSelect s e).selectedNode = none) ∧
    (∀ (g : GraphData) (evs : List Event),
      (run g (loadState g) evs).selectedNode = none ∨
      (run g (loadState g) evs).selectedEdge = none) := by
  refine ⟨fun s n => ⟨rfl, rfl⟩, fun s e => ⟨rfl, rfl⟩, fun g evs => ?_⟩
  rcases evs with _ | ⟨e, evs⟩
  · exact Or.inl rfl
  · suffices h : ∀ (s : SessionState) (evs : List Event),
        (s.selectedNode = none ∨ s.selectedEdge = none) →
        (run g s evs).selectedNode = none ∨ (run g s evs).selectedEdge = none by
      exact h _ evs (step_at_most_one g _ e)
    intro s evs
    induction evs generalizing s with
    | nil => exact fun h => h
    | cons e' evs ih => exact fun _ => ih _ (step_at_most_one g s e')

/-- Membership in the neighbor set of `handleNodeExpand`: exactly the other
endpoints of relationships incident to the expanded id. -/
lemma mem_neighbors {g : GraphData} {v x : String} :
    x ∈ neighbors g v ↔
      ∃ r ∈ g.relationships,
        (r.source = v ∧ x = r.target) ∨ (r.target = v ∧ x = r.source) := by
  suffices h : ∀ (l : List Rel) (acc : Finset String),
      x ∈ l.foldl (fun s r =>
        let s1 := if r.source == v then insert r.target s else s
        if r.target == v then insert r.source s1 else s1) acc ↔
      x ∈ acc ∨ ∃ r ∈ l,
        (r.source = v ∧ x = r.target) ∨ (r.target = v ∧ x = r.source) by
    simpa [neighbors] using h g.relationships ∅
  intro l
  induction l with
  | nil => simp
  | cons r l ih =>
    intro acc
    rw [List.foldl_cons, ih]
    have hacc : x ∈ (let s1 := if r.source == v then insert r.target acc else acc
          if r.target == v then insert r.source s1 else s1) ↔
        x ∈ acc ∨ (r.source = v ∧ x = r.target) ∨ (r.target = v ∧ x = r.source) := by
      by_cases h1 : r.source = v <;> by_cases h2 : r.target = v <;>
        simp [h1, h2] <;> tauto
    rw [hacc]
    constructor
    · rintro ((h | h) | ⟨r', hr', h'⟩)
      · exact Or.inl h
      · exact Or.inr ⟨r, List.mem_cons_self _ _, h⟩
      · exact Or.inr ⟨r', List.mem_cons_of_mem _ hr', h'⟩
    · rintro (h | ⟨r', hr'', h'⟩)
      · exact Or.inl (Or.inl h)
      · rcases List.mem_cons.1 hr'' with rfl | hr3
        · exact Or.inl (Or.inr h')
        · exact Or.inr ⟨r', hr3, h'⟩

/-- The concept and graph of the C10 counterexample: a single node `v` with
a self-loop relationship. -/
def cV : Concept := { id := "v" }

/-- A one-node graph whose only relationship is a self-loop at `v`. -/
def gLoop : GraphData := ⟨[cV], [⟨"e", "v", "v"⟩]⟩

/-- C10 counterexample: with a self-loop relationship at `v`, expanding `v`
from an empty visible set adds `v` itself (the code adds `r.target` when
`r.source` matches and vice versa, so a self-loop makes `v` its own
neighbor) — refuting "VisibleSet gains only the neighbors of v, never v
itself" on its "never v itself" reading. -/
theorem expand_self_loop_cex :
    (step gLoop ⟨none, none, ∅⟩ (.expand cV)).visible = {"v"} := by decide

/-- C10 amended: an expand interaction commits the expanded node as the
selected node (clearing any committed edge selection) and unions exactly the
code-computed neighbor set into the visible set; the expanded node itself
enters that neighbor set iff the graph has a self-loop relationship at it. -/
theorem expand_selects_and_adds_neighbors (g : GraphData) (s : SessionState)
    (n : Concept) :
    (step g s (.expand n)).selectedNode = some n ∧
    (step g s (.expand n)).selectedEdge = none ∧
    (step g s (.expand n)).visible = s.visible ∪ neighbors g n.id ∧
    ((step g s (.expand n)).visible \ s.visible ⊆ neighbors g n.id) ∧
    (n.id ∈ neighbors g n.id ↔
      ∃ r ∈ g.relationships, r.source = n.id ∧ r.target = n.id) := by
  refine ⟨rfl, rfl, rfl, ?_, ?_⟩
  · intro x hx
    rcases Finset.mem_sdiff.1 hx with ⟨hx1, hx2⟩
    rcases Finset.mem_union.1 hx1 with h | h
    · exact absurd h hx2
    · exact h
  · rw [mem_neighbors]
    constructor
    · rintro ⟨r, hr, ⟨h1, h2⟩ | ⟨h1, h2⟩⟩
      · exact ⟨r, hr, h1, h2.symm⟩
      · exact ⟨r, hr, h2.symm, h1⟩
    · rintro ⟨r, hr, h1, h2⟩
      exact ⟨r, hr, Or.inl ⟨h1, h2.symm⟩⟩

/-! ### C4, C8: per-frame rendered output -/

/-- Endpoint nodes of the C4 counterexample: A is a core (depth 0) node,
B a depth-1 node. -/
def nA : Node3D := ⟨"A", some 0⟩

/-- Depth-1 endpoint of the C4 counterexample. -/
def nB : Node3D := ⟨"B", some 1⟩

/-- The edge of the C4 counterexample. -/
def eAB : Rel := ⟨"e1", "A", "B"⟩

/-- C4 counterexample: at camera distance 30 with both node opacities still
at 1 (both nodes were fully faded in), A stays LOD-visible while B starts
fading out; after the frame's opacity update both A and B are above the
render cutoff and appear in the rendered node list, yet the edge A–B is not
rendered (edge visibility follows the instantaneous LOD predicate, not the
faded opacities).  So "an edge appears iff both endpoints appear" fails. -/
theorem edge_node_render_mismatch_cex :
    nodeRendered (.num 30) 1 nA = true ∧
    nodeRendered (.num 30) 1 nB = true ∧
    edgeRendered [nA, nB] (.num 30) eAB = false := by
  refine ⟨?_, ?_, by decide⟩ <;>
  · simp [nodeRendered, stepOpacity, nA, nB, isNodeVisible, LOD_THRESHOLDS, jlt]
    norm_num

/-- C4 amended: an edge is rendered iff both endpoint ids resolve in the
node map and both resolved nodes are LOD-visible at the current camera
distance; and any LOD-visible node with a non-negative opacity is above the
render cutoff after the frame's opacity update (so a rendered edge's
endpoints do appear).  The converse fails only while a node fades out, as
the counterexample shows. -/
theorem edge_rendered_iff_endpoints_lod_visible :
    (∀ (nodes : List Node3D) (d : JSNum) (r : Rel),
      edgeRendered nodes d r = true ↔
        (∃ s, nodeMapGet nodes r.source = some s ∧
          isNodeVisible d s.depth_level = true) ∧
        (∃ t, nodeMapGet nodes r.target = some t ∧
          isNodeVisible d t.depth_level = true)) ∧
    (∀ (d : JSNum) (op : ℚ) (n : Node3D), 0 ≤ op →
      isNodeVisible d n.depth_level = true → nodeRendered d op n = true) := by
  constructor
  · intro nodes d r
    unfold edgeRendered isEdgeVisible
    rcases hs : nodeMapGet nodes r.source with _ | s <;>
      rcases ht : nodeMapGet nodes r.target with _ | t <;>
        simp [hs, ht]
  · intro d op n hop hvis
    simp [nodeRendered, stepOpacity, hvis]
    nlinarith

/-- Witness for `edge_rendered_iff_endpoints_lod_visible`: the opacity part
at the concrete LOD-visible node B, opacity 0, distance 1. -/
theorem edge_rendered_iff_endpoints_lod_visible_witness :
    nodeRendered (.num 1) 0 nB = true :=
  edge_rendered_iff_endpoints_lod_visible.2 (.num 1) 0 nB (by norm_num) (by decide)

/-- A relationship endpoint id that no concept carries never resolves in
the node map built from (any filtering of) the concept list. -/
lemma nodeMapGet_none {cs : List Concept} {p : Concept → Bool} {x : String}
    (h : ∀ c ∈ cs, c.id ≠ x) :
    nodeMapGet ((cs.filter p).map toNode3D) x = none := by
  unfold nodeMapGet
  rw [List.find?_eq_none]
  intro n hn
  rw [List.mem_reverse, List.mem_map] at hn
  rcases hn with ⟨c, hc, rfl⟩
  simpa [toNode3D] using h c (List.mem_of_mem_filter hc)

/-- C8: a relationship whose source (or target) id matches no concept id is
silently excluded from the rendered output — the whole per-frame pipeline is
a total function, so nothing is thrown — and it affects nothing else: the
rendered concepts and the rendered edge list are exactly those of the same
graph without the offending relationship. -/
theorem dangling_edge_dropped (cs : List Concept) (l1 l2 : List Rel) (r : Rel)
    (vis : Finset String) (d : JSNum)
    (h : (∀ c ∈ cs, c.id ≠ r.source) ∨ (∀ c ∈ cs, c.id ≠ r.target)) :
    r ∉ renderedEdges ⟨cs, l1 ++ r :: l2⟩ vis d ∧
    renderedEdges ⟨cs, l1 ++ r :: l2⟩ vis d = renderedEdges ⟨cs, l1 ++ l2⟩ vis d ∧
    renderedConcepts ⟨cs, l1 ++ r :: l2⟩ vis = renderedConcepts ⟨cs, l1 ++ l2⟩ vis := by
  have hdrop : edgeRendered
      ((cs.filter (fun c => decide (c.id ∈ vis))).map toNode3D) d r = false := by
    unfold edgeRendered
    rcases h with h | h
    · rw [nodeMapGet_none h]
    · rw [nodeMapGet_none h]
      split <;> simp_all
  refine ⟨?_, ?_, rfl⟩
  · intro hr
    have h2 : edgeRendered
        ((cs.filter (fun c => decide (c.id ∈ vis))).map toNode3D) d r = true :=
      List.of_mem_filter hr
    rw [hdrop] at h2
    cases h2
  · show ((l1 ++ r :: l2).filter
        (fun x => decide (x.source ∈ vis) && decide (x.target ∈ vis))).filter
        (fun x => edgeRendered
          ((cs.filter (fun c => decide (c.id ∈ vis))).map toNode3D) d x)
      = ((l1 ++ l2).filter
        (fun x => decide (x.source ∈ vis) && decide (x.target ∈ vis))).filter
        (fun x => edgeRendered
          ((cs.filter (fun c => decide (c.id ∈ vis))).map toNode3D) d x)
    rw [List.filter_filter, List.filter_filter]
    simp only [List.filter_append, List.filter_cons]
    rw [if_neg (by simp [hdrop])]

/-! ### C9: the deterministic orbital layout
(ConceptGraph3D.tsx, third variant, lines 1573-1660) -/

/-- `l` starts with `sub` (character-list version of a string test). -/
def charsStartWith : List Char → List Char → Bool
  | [], _ => true
  | _ :: _, [] => false
  | a :: as, b :: bs => a == b && charsStartWith as bs

/-- `sub` occurs contiguously somewhere in the list. -/
def charsContain (sub : List Char) : List Char → Bool
  | [] => charsStartWith sub []
  | c :: t => charsStartWith sub (c :: t) || charsContain sub t

/-- JavaScript's `String.prototype.includes`. -/
def strIncludes (s sub : String) : Bool :=
  charsContain sub.data s.data

/-- The inner-ring heuristic of the orbital layout (lines 1598-1610): a node
is entity-like when its lowercased label contains one of four substrings or
its `semantic_type` is `"entity"` (`node.semantic_type || ""`). -/
def isEntityNode (c : Concept) : Bool :=
  let label := c.label.toLower
  let t := c.semantic_type.getD ""
  strIncludes label "user" || strIncludes label "client" ||
    strIncludes label "empl" || strIncludes label "group" || t == "entity"

/-- Root choice (lines 1576-1581): the first concept with `depth_level` 0
(defaulting to 0), else the first concept, else none (empty graph). -/
def rootOf (g : GraphData) : Option Concept :=
  match g.concepts.filter (fun c => c.depth_level.getD 0 == 0) with
  | r :: _ => some r
  | [] => g.concepts.head?

/-- Ring assignment (lines 1595-1615): entity-like remainders form the inner
ring and the rest the outer ring; if the inner ring would be empty, the
first `⌈m/2⌉` outer nodes are spliced into it. -/
def ringSplit (remainders : List Concept) : List Concept × List Concept :=
  let inner := remainders.filter isEntityNode
  let outer := remainders.filter (fun c => !isEntityNode c)
  if inner.isEmpty then
    (outer.take ((outer.length + 1) / 2), outer.drop ((outer.length + 1) / 2))
  else (inner, outer)

/-- Inner-ring placement (lines 1617-1635): radius 16, evenly spaced angles
`i * (2π / max 1 n)`, no vertical offset. -/
noncomputable def innerPos (n i : ℕ) : ℝ × ℝ × ℝ :=
  let angle : ℝ := i * (2 * Real.pi / (max 1 n : ℕ))
  (16 * Real.cos angle, 0, 16 * Real.sin angle)

/-- Outer-ring placement (lines 1637-1657): radius 28, angles offset by π/4,
sinusoidal vertical offset `sin(2·angle) * 8`. -/
noncomputable def outerPos (m i : ℕ) : ℝ × ℝ × ℝ :=
  let angle : ℝ := i * (2 * Real.pi / (max 1 m : ℕ)) + Real.pi / 4
  (28 * Real.cos angle, Real.sin (angle * 2) * 8, 28 * Real.sin angle)

/-- The layout produced once a root is designated (lines 1583-1659): the
root at the origin, then the inner and outer rings in order.  Only the
concept and its position are recorded (colour, size, icon, side and variant
are presentation fields). -/
noncomputable def layoutWithRoot (g : GraphData) (root : Concept) :
    List (Concept × (ℝ × ℝ × ℝ)) :=
  let remainders := g.concepts.filter (fun c => !(c.id == root.id))
  let inner := (ringSplit remainders).1
  let outer := (ringSplit remainders).2
  (root, (0, 0, 0)) ::
    (List.ofFn (fun i : Fin inner.length => (inner.get i, innerPos inner.length i.val)) ++
      List.ofFn (fun i : Fin outer.length => (outer.get i, outerPos outer.length i.val)))

/-- `computeLayout` for the orbital strategy: empty output for the empty
graph (`if (!root) return`), otherwise the root/ring placement. -/
noncomputable def orbitalLayout (g : GraphData) : List (Concept × (ℝ × ℝ × ℝ)) :=
  match rootOf g with
  | none => []
  | some root => layoutWithRoot g root

/-- Two real angles with equal cosine and equal sine differ by an integer
multiple of 2π. -/
lemma angle_eq_of_cos_sin {a b : ℝ} (hc : Real.cos a = Real.cos b)
    (hs : Real.sin a = Real.sin b) : ∃ k : ℤ, a - b = 2 * Real.pi * k :=
  Real.Angle.angle_eq_iff_two_pi_dvd_sub.mp (Real.Angle.cos_sin_inj hc hs)

/-- On a ring of `n` evenly spaced angles (any fixed offset), equal
cosine/sine pairs force equal indices. -/
lemma ring_index_inj {n i j : ℕ} (hi : i < n) (hj : j < n) (off : ℝ)
    (hc : Real.cos (i * (2 * Real.pi / n) + off) = Real.cos (j * (2 * Real.pi / n) + off))
    (hs : Real.sin (i * (2 * Real.pi / n) + off) = Real.sin (j * (2 * Real.pi / n) + off)) :
    i = j := by
  obtain ⟨k, hk⟩ := angle_eq_of_cos_sin hc hs
  have hn : 0 < n := lt_of_le_of_lt (Nat.zero_le i) hi
  have hn0 : (0 : ℝ) < n := by exact_mod_cast hn
  have hne : (n : ℝ) ≠ 0 := ne_of_gt hn0
  have h2pi : (2 * Real.pi) ≠ 0 := mul_ne_zero two_ne_zero Real.pi_ne_zero
  have hk2 : ((i : ℝ) - j) * (2 * Real.pi / n) = 2 * Real.pi * k := by
    linear_combination hk
  have hk3 : ((i : ℝ) - j) * (2 * Real.pi) = (k * n) * (2 * Real.pi) := by
    have h := congrArg (fun t : ℝ => t * n) hk2
    field_simp at h
    linarith [h]
  have hk4 : (i : ℝ) - j = k * n := mul_right_cancel₀ h2pi hk3
  have hiR : (i : ℝ) < n := by exact_mod_cast hi
  have hjR : (j : ℝ) < n := by exact_mod_cast hj
  have hi0 : (0 : ℝ) ≤ i := Nat.cast_nonneg i
  have hj0 : (0 : ℝ) ≤ j := Nat.cast_nonneg j
  have hk0 : k = 0 := by
    rcases lt_trichotomy k 0 with h | h | h
    · exfalso
      have hk1 : (k : ℝ) ≤ -1 := by exact_mod_cast (by omega : k ≤ -1)
      nlinarith
    · exact h
    · exfalso
      have hk1 : (1 : ℝ) ≤ k := by exact_mod_cast (by omega : 1 ≤ k)
      nlinarith
  rw [hk0] at hk4
  push_cast at hk4
  have h5 : (i : ℝ) = j := by linarith
  exact_mod_cast h5

/-- Distinct indices on the inner ring give distinct positions. -/
lemma innerPos_inj {n i j : ℕ} (hi : i < n) (hj : j < n)
    (h : innerPos n i = innerPos n j) : i = j := by
  have hn : 0 < n := lt_of_le_of_lt (Nat.zero_le i) hi
  have hmax : max 1 n = n := max_eq_right hn
  simp only [innerPos, hmax, Prod.mk.injEq] at h
  obtain ⟨hx, -, hz⟩ := h
  have h16 : (16 : ℝ) ≠ 0 := by norm_num
  have hc := mul_left_cancel₀ h16 hx
  have hs := mul_left_cancel₀ h16 hz
  exact ring_index_inj hi hj 0 (by simpa using hc) (by simpa using hs)

/-- Distinct indices on the outer ring give distinct positions. -/
lemma outerPos_inj {m i j : ℕ} (hi : i < m) (hj : j < m)
    (h : outerPos m i = outerPos m j) : i = j := by
  have hm : 0 < m := lt_of_le_of_lt (Nat.zero_le i) hi
  have hmax : max 1 m = m := max_eq_right hm
  simp only [outerPos, hmax, Prod.mk.injEq] at h
  obtain ⟨hx, -, hz⟩ := h
  have h28 : (28 : ℝ) ≠ 0 := by norm_num
  have hc := mul_left_cancel₀ h28 hx
  have hs := mul_left_cancel₀ h28 hz
  exact ring_index_inj hi hj (Real.pi / 4) hc hs

/-- Inner-ring and outer-ring positions never coincide (their horizontal
distances from the axis are 16 and 28). -/
lemma innerPos_ne_outerPos (n i m j : ℕ) : innerPos n i ≠ outerPos m j := by
  intro h
  simp only [innerPos, outerPos, Prod.mk.injEq] at h
  obtain ⟨hx, -, hz⟩ := h
  have h1 := Real.sin_sq_add_cos_sq ((i : ℝ) * (2 * Real.pi / (max 1 n : ℕ)))
  have h2 := Real.sin_sq_add_cos_sq ((j : ℝ) * (2 * Real.pi / (max 1 m : ℕ)) + Real.pi / 4)
  nlinarith [congrArg (fun t : ℝ => t ^ 2) hx, congrArg (fun t : ℝ => t ^ 2) hz]

/-- The origin never coincides with an inner-ring position. -/
lemma origin_ne_innerPos (n i : ℕ) :
    ((0 : ℝ), (0 : ℝ), (0 : ℝ)) ≠ innerPos n i := by
  intro h
  simp only [innerPos, Prod.mk.injEq] at h
  obtain ⟨hx, -, hz⟩ := h
  have h1 := Real.sin_sq_add_cos_sq ((i : ℝ) * (2 * Real.pi / (max 1 n : ℕ)))
  nlinarith [congrArg (fun t : ℝ => t ^ 2) hx, congrArg (fun t : ℝ => t ^ 2) hz]

/-- The origin never coincides with an outer-ring position. -/
lemma origin_ne_outerPos (m j : ℕ) :
    ((0 : ℝ), (0 : ℝ), (0 : ℝ)) ≠ outerPos m j := by
  intro h
  simp only [outerPos, Prod.mk.injEq] at h
  obtain ⟨hx, -, hz⟩ := h
  have h1 := Real.sin_sq_add_cos_sq ((j : ℝ) * (2 * Real.pi / (max 1 m : ℕ)) + Real.pi / 4)
  nlinarith [congrArg (fun t : ℝ => t ^ 2) hx, congrArg (fun t : ℝ => t ^ 2) hz]

/-- A root of `none` only happens for the empty concept list. -/
lemma rootOf_none {g : GraphData} (h : rootOf g = none) : g.concepts = [] := by
  unfold rootOf at h
  split at h
  · exact absurd h (by simp)
  · exact List.head?_eq_none_iff.mp h

/-- The designated root is one of the graph's concepts. -/
lemma rootOf_mem {g : GraphData} {root : Concept} (h : rootOf g = some root) :
    root ∈ g.concepts := by
  unfold rootOf at h
  rcases heq : g.concepts.filter (fun c => c.depth_level.getD 0 == 0) with _ | ⟨r, t⟩ <;>
    rw [heq] at h
  · exact List.mem_of_mem_head? h
  · injection h with h2
    subst h2
    have hr : r ∈ g.concepts.filter (fun c => c.depth_level.getD 0 == 0) := by
      rw [heq]
      exact List.mem_cons_self _ _
    exact List.mem_of_mem_filter hr

/-- The two rings together are a permutation of the remainders. -/
lemma ringSplit_perm (l : List Concept) :
    ((ringSplit l).1 ++ (ringSplit l).2).Perm l := by
  unfold ringSplit
  by_cases he : (l.filter isEntityNode).isEmpty
  · rw [if_pos he]
    simp only []
    rw [List.take_append_drop]
    have hfil : l.filter (fun c => !isEntityNode c) = l := by
      rw [List.filter_eq_self]
      intro a ha
      have h2 := List.filter_eq_nil_iff.mp (List.isEmpty_iff.mp he) a ha
      simp_all
    rw [hfil]
  · rw [if_neg he]
    exact List.filter_append_perm _ l

/-- Under unique ids, re-attaching the root to the remainders recovers the
concept list up to permutation. -/
lemma filter_ne_id_perm {cs : List Concept} {root : Concept}
    (hnd : (cs.map Concept.id).Nodup) (hmem : root ∈ cs) :
    (root :: cs.filter (fun c => !(c.id == root.id))).Perm cs := by
  induction cs with
  | nil => cases hmem
  | cons c cs ih =>
    rw [List.map_cons, List.nodup_cons] at hnd
    rcases List.mem_cons.1 hmem with rfl | hmem2
    · have hfil : cs.filter (fun x => !(x.id == root.id)) = cs := by
        rw [List.filter_eq_self]
        intro a ha
        have : a.id ≠ root.id := by
          intro he
          exact hnd.1 (he ▸ List.mem_map_of_mem Concept.id ha)
        simp [this]
      simp [List.filter_cons, hfil]
    · have hCne : c.id ≠ root.id := by
        intro he
        exact hnd.1 (he ▸ List.mem_map_of_mem Concept.id hmem2)
      rw [List.filter_cons, if_pos (by simp [hCne])]
      refine List.Perm.trans (List.Perm.swap c root _) ?_
      exact (ih hnd.2 hmem2).cons c

/-- Products of a nonnegative constant with a value of absolute value at
most one stay within the constant. -/
lemma abs_mul_le {c : ℝ} (hc : 0 ≤ c) (t : ℝ) (ht : |t| ≤ 1) : |c * t| ≤ c := by
  rw [abs_mul, abs_of_nonneg hc]
  nlinarith [abs_nonneg t]

/-- All positions of one layout are pairwise distinct: the origin, the
16-radius ring and the 28-radius ring are mutually disjoint, and within a
ring distinct indices give distinct angles below 2π. -/
lemma layoutWithRoot_pairwise (g : GraphData) (root : Concept) :
    (layoutWithRoot g root).Pairwise (fun a b => a.2 ≠ b.2) := by
  simp only [layoutWithRoot]
  rw [List.pairwise_cons]
  constructor
  · intro b hb
    rcases List.mem_append.1 hb with hb | hb <;>
      rcases Set.mem_range.1 ((List.mem_ofFn _ _).1 hb) with ⟨i, rfl⟩
    · exact origin_ne_innerPos _ _
    · exact origin_ne_outerPos _ _
  · rw [List.pairwise_append]
    refine ⟨?_, ?_, ?_⟩
    · rw [List.pairwise_ofFn]
      intro i j hij h
      exact absurd (innerPos_inj i.isLt j.isLt h) (Nat.ne_of_lt hij)
    · rw [List.pairwise_ofFn]
      intro i j hij h
      exact absurd (outerPos_inj i.isLt j.isLt h) (Nat.ne_of_lt hij)
    · intro a ha b hb
      rcases Set.mem_range.1 ((List.mem_ofFn _ _).1 ha) with ⟨i, rfl⟩
      rcases Set.mem_range.1 ((List.mem_ofFn _ _).1 hb) with ⟨j, rfl⟩
      exact innerPos_ne_outerPos _ _ _ _

/-- The concepts carried by one layout, in order: the root, then the inner
ring, then the outer ring. -/
lemma layoutWithRoot_map_fst (g : GraphData) (root : Concept) :
    (layoutWithRoot g root).map Prod.fst =
      root :: ((ringSplit (g.concepts.filter (fun c => !(c.id == root.id)))).1 ++
        (ringSplit (g.concepts.filter (fun c => !(c.id == root.id)))).2) := by
  simp only [layoutWithRoot, List.map_cons, List.map_append, List.map_ofFn]
  simp [Function.comp_def, List.ofFn_get]

/-- Coordinate bounds for the inner ring. -/
lemma innerPos_bounds (n i : ℕ) :
    |(innerPos n i).1| ≤ 28 ∧ |(innerPos n i).2.1| ≤ 8 ∧ |(innerPos n i).2.2| ≤ 28 := by
  refine ⟨?_, ?_, ?_⟩
  · show |16 * Real.cos _| ≤ 28
    exact (abs_mul_le (by norm_num) _ (Real.abs_cos_le_one _)).trans (by norm_num)
  · show |(0 : ℝ)| ≤ 8
    norm_num
  · show |16 * Real.sin _| ≤ 28
    exact (abs_mul_le (by norm_num) _ (Real.abs_sin_le_one _)).trans (by norm_num)

/-- Coordinate bounds for the outer ring. -/
lemma outerPos_bounds (m j : ℕ) :
    |(outerPos m j).1| ≤ 28 ∧ |(outerPos m j).2.1| ≤ 8 ∧ |(outerPos m j).2.2| ≤ 28 := by
  refine ⟨?_, ?_, ?_⟩
  · show |28 * Real.cos _| ≤ 28
    exact abs_mul_le (by norm_num) _ (Real.abs_cos_le_one _)
  · show |Real.sin _ * 8| ≤ 8
    rw [mul_comm]
    exact abs_mul_le (by norm_num) _ (Real.abs_sin_le_one _)
  · show |28 * Real.sin _| ≤ 28
    exact abs_mul_le (by norm_num) _ (Real.abs_sin_le_one _)

/-- Coordinate bounds for the whole layout. -/
lemma layoutWithRoot_bounds (g : GraphData) (root : Concept) (p : Concept × (ℝ × ℝ × ℝ))
    (hp : p ∈ layoutWithRoot g root) :
    |p.2.1| ≤ 28 ∧ |p.2.2.1| ≤ 8 ∧ |p.2.2.2| ≤ 28 := by
  simp only [layoutWithRoot, List.mem_cons, List.mem_append] at hp
  rcases hp with rfl | hp | hp
  · norm_num
  · rcases Set.mem_range.1 ((List.mem_ofFn _ _).1 hp) with ⟨i, rfl⟩
    exact innerPos_bounds _ _
  · rcases Set.mem_range.1 ((List.mem_ofFn _ _).1 hp) with ⟨i, rfl⟩
    exact outerPos_bounds _ _

/-- Unfolding the layout once a root is designated. -/
lemma orbitalLayout_some {g : GraphData} {root : Concept}
    (h : rootOf g = some root) : orbitalLayout g = layoutWithRoot g root := by
  unfold orbitalLayout
  rw [h]

/-- C9: the orbital `computeLayout` assigns a position to every node — for
the empty graph the layout is empty, a one-concept graph places its concept
at the origin, and under the data-model invariant of unique ids the laid-out
concepts are exactly the graph's concepts — no two entries of a layout share
a position, and every coordinate is bounded (|x| ≤ 28, |y| ≤ 8, |z| ≤ 28),
so all positions are finite. -/
theorem orbital_layout_positions :
    (∀ rels : List Rel, orbitalLayout ⟨[], rels⟩ = []) ∧
    (∀ (c : Concept) (rels : List Rel),
      orbitalLayout ⟨[c], rels⟩ = [(c, ((0 : ℝ), (0 : ℝ), (0 : ℝ)))]) ∧
    (∀ g : GraphData, (g.concepts.map Concept.id).Nodup →
      ((orbitalLayout g).map Prod.fst).Perm g.concepts) ∧
    (∀ g : GraphData, (orbitalLayout g).Pairwise (fun a b => a.2 ≠ b.2)) ∧
    (∀ g : GraphData, ∀ p ∈ orbitalLayout g,
      |p.2.1| ≤ 28 ∧ |p.2.2.1| ≤ 8 ∧ |p.2.2.2| ≤ 28) := by
  refine ⟨fun rels => rfl, ?_, ?_, ?_, ?_⟩
  · intro c rels
    have hroot : rootOf ⟨[c], rels⟩ = some c := by
      unfold rootOf
      by_cases hc : (c.depth_level.getD 0 == 0) = true <;> simp [List.filter_cons, hc]
    rw [orbitalLayout_some hroot]
    have hrem : (([c] : List Concept).filter (fun x => !(x.id == c.id))) = [] := by simp
    simp [layoutWithRoot, hrem, ringSplit]
  · intro g hnd
    cases hroot : rootOf g with
    | none =>
      rw [show orbitalLayout g = [] by unfold orbitalLayout; rw [hroot],
        rootOf_none hroot]
      exact List.Perm.refl []
    | some root =>
      rw [orbitalLayout_some hroot, layoutWithRoot_map_fst]
      refine List.Perm.trans ?_ (filter_ne_id_perm hnd (rootOf_mem hroot))
      exact (ringSplit_perm _).cons root
  · intro g
    cases hroot : rootOf g with
    | none => simp [orbitalLayout, hroot]
    | some root =>
      rw [orbitalLayout_some hroot]
      exact layoutWithRoot_pairwise g root
  · intro g p hp
    cases hroot : rootOf g with
    | none =>
      rw [show orbitalLayout g = [] by unfold orbitalLayout; rw [hroot]] at hp
      cases hp
    | some root =>
      rw [orbitalLayout_some hroot] at hp
      exact layoutWithRoot_bounds g root p hp

/-- A two-concept graph with distinct ids, for the C9 witness. -/
def gTwo : GraphData :=
  ⟨[{ id := "A", depth_level := some 0 }, { id := "B", depth_level := some 1 }], []⟩

/-- Witness for `orbital_layout_positions`: the unique-id part at the
concrete two-node graph. -/
theorem orbital_layout_positions_witness :
    ((orbitalLayout gTwo).map Prod.fst).Perm gTwo.concepts :=
  orbital_layout_positions.2.2.1 gTwo (by decide)

/-- Witness for `dangling_edge_dropped`: a one-concept graph with a
relationship pointing at the nonexistent id "X". -/
theorem dangling_edge_dropped_witness :
    (⟨"rx", "A", "X"⟩ : Rel) ∉
      renderedEdges ⟨[{ id := "A" }], [] ++ (⟨"rx", "A", "X"⟩ : Rel) :: []⟩
        {"A", "X"} (.num 5) ∧
    renderedEdges ⟨[{ id := "A" }], [] ++ (⟨"rx", "A", "X"⟩ : Rel) :: []⟩
        {"A", "X"} (.num 5) =
      renderedEdges ⟨[{ id := "A" }], [] ++ []⟩ {"A", "X"} (.num 5) ∧
    renderedConcepts ⟨[{ id := "A" }], [] ++ (⟨"rx", "A", "X"⟩ : Rel) :: []⟩
        {"A", "X"} =
      renderedConcepts ⟨[{ id := "A" }], [] ++ []⟩ {"A", "X"} :=
  dangling_edge_dropped [{ id := "A" }] [] [] ⟨"rx", "A", "X"⟩ {"A", "X"} (.num 5)
    (Or.inr (by decide))

end KWeb
